import Mathlib

/-!
Verification development for the bill-merging engine (`merge_bills.py`).

Python strings are modelled as lists of Unicode code points (`Txt := List Nat`).
External library calls that the engine treats as black boxes are modelled as
explicit function parameters (oracles):
* `SearchFn` models `re.search(pattern, target, re.IGNORECASE)`; `none` models a
  raised exception (malformed pattern), `some b` models found / not found;
* `Txt → Option Nat` models `_to_date` (a timestamp in arbitrary units, `none`
  for an unparsable date);
* `PriParse` models `int(float(x))` in the rule loader (`none` = parse failure).
Concrete, executable models are given for the library operations the engine
relies on: a fragment of NFKC (full-width folding plus one canonical
composition pair, e + combining acute -> e-acute, so that the order
NFKC-before-zero-width-space-removal is observable), `str.lower`, the
whitespace class used by `str.strip` and `re`'s `\s`, and `float()` on signed
decimal numerals and the special literals nan / inf / infinity (`PyFloat`
distinguishes finite values, NaN and infinities; exponent numerals denote
ordinary finite values, affect no claim, and are outside the modelled
fragment).

Python's `list.sort(key=..., reverse=True)` (Timsort) is modelled by the stable
insertion sort `sortStable`; pandas' `DataFrame.sort_values("date")` is
modelled by the contract `isSortImpl` (any function returning a permutation
sorted by date), since pandas' default `kind="quicksort"` only guarantees a
sorted permutation, not stability.
-/

namespace MergeBills

/-- A Python `str`, as its list of Unicode code points. -/
abbrev Txt := List Nat

/-- Whitespace test shared by Python's `str.strip()` / `str.isspace()` and the
`\s` class of the `re` module on `str` patterns: ASCII whitespace 0x09–0x0D,
the separator controls 0x1C–0x1F, space, NEL 0x85, NBSP 0xA0, and the Unicode
space separators.  Note U+200B (zero-width space) is not whitespace in
Python 3. -/
def pyIsSpace (n : Nat) : Bool :=
  decide ((9 ≤ n ∧ n ≤ 13) ∨ (28 ≤ n ∧ n ≤ 31) ∨ n = 32 ∨ n = 0x85 ∨ n = 0xA0 ∨
    n = 0x1680 ∨ (0x2000 ≤ n ∧ n ≤ 0x200A) ∨ n = 0x2028 ∨ n = 0x2029 ∨
    n = 0x202F ∨ n = 0x205F ∨ n = 0x3000)

/-- Character-level fragment of Python `unicodedata.normalize("NFKC", ·)` for
the alphabet relevant to the engine: the full-width ASCII variants U+FF01–FF5E
fold to their ASCII forms, the ideographic space U+3000 and NBSP U+00A0 fold to
an ordinary space; all other modelled code points (ASCII, CJK ideographs,
U+200B, ...) are NFKC-fixed. -/
def nfkcChar (n : Nat) : Nat :=
  if n = 0xA0 ∨ n = 0x3000 then 32
  else if 0xFF01 ≤ n ∧ n ≤ 0xFF5E then n - 0xFEE0
  else n

/-- Python `str.lower()` restricted to the modelled alphabet: ASCII A–Z map to
a–z, every other modelled code point is its own lower case. -/
def pyLower (n : Nat) : Nat := if 65 ≤ n ∧ n ≤ 90 then n + 32 else n

/-- The canonical composition pair of the modelled NFKC fragment: the base
letter `e` (U+0065) followed by the combining acute accent U+0301 composes to
`é` (U+00E9); no other modelled pair composes. -/
def composePair (a b : Nat) : Option Nat :=
  if a = 0x65 ∧ b = 0x301 then some 0xE9 else none

/-- The canonical-composition pass of NFKC on the modelled repertoire:
compose every base letter with a directly following combining mark (per
`composePair`); any intervening character — such as a zero-width space —
blocks the composition, exactly as in Unicode normalization. -/
def composeStr : Txt → Txt
  | [] => []
  | a :: rest =>
    match composeStr rest with
    | [] => [a]
    | b :: rest' =>
      match composePair a b with
      | some c => c :: rest'
      | none => a :: b :: rest'

/-- Python `str.strip()`: drop leading and trailing whitespace. -/
def pyStrip (l : Txt) : Txt :=
  ((l.dropWhile pyIsSpace).reverse.dropWhile pyIsSpace).reverse

/-- Split a text at every character satisfying `p`, keeping empty fields:
returns the first field and the list of remaining fields (the shape of
Python's `s.split(sep)`). -/
def splitAllP (p : Nat → Bool) : Txt → Txt × List Txt
  | [] => ([], [])
  | c :: rest =>
    let s := splitAllP p rest
    if p c then ([], s.1 :: s.2) else (c :: s.1, s.2)

/-- All fields of the split (including empty ones), as one list. -/
def splitFields (p : Nat → Bool) (l : Txt) : List Txt :=
  (splitAllP p l).1 :: (splitAllP p l).2

/-- The maximal whitespace-free runs of `l`, in order (empty fields dropped). -/
def wsTokens (l : Txt) : List Txt :=
  (splitFields pyIsSpace l).filter (fun t => t ≠ [])

/-- Join texts with a single space between consecutive ones (`" ".join`). -/
def joinSpace : List Txt → Txt
  | [] => []
  | [t] => t
  | t :: ts => t ++ 32 :: joinSpace ts

/-- `re.sub(r"\s+", " ", s).strip()`: collapse every whitespace run to a single
space and trim the ends — equivalently, the space-join of the whitespace-free
runs of `s`. -/
def collapseStrip (l : Txt) : Txt := joinSpace (wsTokens l)

/-- `_normalize_text` from `merge_bills.py`: `None` becomes `""`; otherwise
NFKC, then `replace(" ", " ")` and `replace("​", "")`, then
`re.sub(r"\s+", " ", s).strip()`, then `lower()`. -/
def _normalize_text (s : Option Txt) : Txt :=
  match s with
  | none => []
  | some l =>
    let s1 := composeStr (l.map nfkcChar)
    let s2 := (s1.map (fun c => if c = 0xA0 then 32 else c)).filter
      (fun c => c ≠ 0x200B)
    (collapseStrip s2).map pyLower

/-- Does `needle` occur at the very start of `hay`? -/
def startsWithL : Txt → Txt → Bool
  | [], _ => true
  | _ :: _, [] => false
  | a :: as, b :: bs => a = b && startsWithL as bs

/-- Python's substring test `needle in hay` (contiguous occurrence). -/
def containsSub (needle : Txt) : Txt → Bool
  | [] => needle.isEmpty
  | c :: rest => startsWithL needle (c :: rest) || containsSub needle rest

/-- The `'|'` code point test used by `patt.split("|")`. -/
def isBar (n : Nat) : Bool := n == 0x7C

/-- `[v for v in patt.split("|") if v]`: the non-empty alias variants. -/
def aliasVariants (patt : Txt) : List Txt :=
  (splitFields isBar patt).filter (fun v => v ≠ [])

/-- Literal (non-regex) matching of a rule pattern: some non-empty alias is a
substring of the target. -/
def anyAlias (patt target : Txt) : Bool :=
  (aliasVariants patt).any (fun v => containsSub v target)

/-- Oracle for `re.search(patt, target, re.IGNORECASE)`: `none` models a raised
exception (malformed pattern), `some b` models a completed search. -/
def SearchFn : Type := Txt → Txt → Option Bool

/-- The truth value the classifier extracts from one `re.search` call wrapped
in `try/except`: only a completed, successful search counts; an exception
(`none`) counts as no match. -/
def reFound (se : SearchFn) (patt target : Txt) : Bool :=
  match se patt target with
  | some true => true
  | _ => false

/-- One condition evaluation of the classifier: regex or literal-alias mode. -/
def evalCond (se : SearchFn) (isRx : Bool) (patt target : Txt) : Bool :=
  if isRx then reFound se patt target else anyAlias patt target

/-- One row of `category_map.csv` after loading (`ClassificationRule`). -/
structure Rule where
  priority : Int
  merchant : Txt
  keyword : Txt
  category : Txt
  subcategory : Txt
  regex : Bool
deriving DecidableEq

/-- The per-rule test of `_classify`'s loop body: the `ok` flag starts true,
the merchant condition (if the rule declares one) is checked against the
merchant text — widened to the full text when the rule has no keyword — and
the keyword condition (if declared, and only if `ok` still holds) is checked
against the item⊕note text. -/
def matchRule (se : SearchFn) (mtext itjoin ftext : Txt) (r : Rule) : Bool :=
  let ok1 :=
    if r.merchant = [] then true
    else
      let patt := _normalize_text (some r.merchant)
      let target := if r.keyword = [] then ftext else mtext
      if r.regex then reFound se patt target else anyAlias patt target
  if ok1 then
    if r.keyword = [] then true
    else
      let pattk := _normalize_text (some r.keyword)
      if r.regex then reFound se pattk itjoin else anyAlias pattk itjoin
  else false

/-- The `for r in rules` loop of `_classify`: return the first matching rule's
category pair, `("", "")` if none matches. -/
def classifyGo (se : SearchFn) (mtext itjoin ftext : Txt) : List Rule → Txt × Txt
  | [] => ([], [])
  | r :: rs =>
    if matchRule se mtext itjoin ftext r then (r.category, r.subcategory)
    else classifyGo se mtext itjoin ftext rs

/-- `mtext`: the normalized merchant field (`None` coerced to `""`). -/
def mText (merchant : Option Txt) : Txt := _normalize_text (some (merchant.getD []))

/-- `itext`: the normalized item field. -/
def iText (item : Option Txt) : Txt := _normalize_text (some (item.getD []))

/-- `ntext`: the normalized note field. -/
def nText (note : Option Txt) : Txt := _normalize_text (some (note.getD []))

/-- `itext_join = " ".join([itext, ntext]).strip()` — built from item and note
only; the merchant field does not enter this target. -/
def itemJoin (note item : Option Txt) : Txt :=
  pyStrip (iText item ++ 32 :: nText note)

/-- `fulltext = " ".join([mtext, itext, ntext]).strip()`. -/
def fullText (note merchant item : Option Txt) : Txt :=
  pyStrip (mText merchant ++ 32 :: (iText item ++ 32 :: nText note))

/-- `_classify(note, merchant, item, rules)` from `merge_bills.py`. -/
def _classify (se : SearchFn) (note merchant item : Option Txt)
    (rules : List Rule) : Txt × Txt :=
  classifyGo se (mText merchant) (itemJoin note item)
    (fullText note merchant item) rules

/-- Replace a rule's two patterns by their normalized forms. -/
def normPatterns (r : Rule) : Rule :=
  { r with merchant := _normalize_text (some r.merchant),
           keyword := _normalize_text (some r.keyword) }

/-- One raw row of `category_map.csv` (a field is `none` when the cell is
missing or NaN). -/
structure RawRow where
  priority : Option Txt
  merchant : Option Txt
  keyword : Option Txt
  category : Option Txt
  subcategory : Option Txt
  regex : Option Txt

/-- Oracle for `int(float(x))` on the raw priority cell (`none` = the
`try/except` caught a parse failure, including a missing cell). -/
def PriParse : Type := Option Txt → Option Int

/-- `to_int(x, default=0)` from `_load_category_rules`. -/
def to_int (prs : PriParse) (x : Option Txt) : Int := (prs x).getD 0

/-- `str(row.get("regex", "0")).strip() in ["1", "true", "True"]`. -/
def isRegexFlag (x : Option Txt) : Bool :=
  let s := pyStrip (x.getD [0x30])
  decide (s = [0x31] ∨ s = [0x74, 0x72, 0x75, 0x65] ∨ s = [0x54, 0x72, 0x75, 0x65])

/-- The rule built from one raw row, or `none` when the row is dropped because
its category is empty after trimming. -/
def mkRule (prs : PriParse) (row : RawRow) : Option Rule :=
  let cat := pyStrip (row.category.getD [])
  if cat = [] then none
  else
    some { priority := to_int prs row.priority,
           merchant := pyStrip (row.merchant.getD []),
           keyword := pyStrip (row.keyword.getD []),
           category := cat,
           subcategory := pyStrip (row.subcategory.getD []),
           regex := isRegexFlag row.regex }

/-- Insert `a` into `l`, keeping before `a` exactly the elements `x` with
`keep x a = true`; with `keep` a strict comparison this is the insertion step
of a stable sort. -/
def insertStable {α : Type} (keep : α → α → Bool) (a : α) : List α → List α
  | [] => [a]
  | x :: xs => if keep x a then x :: insertStable keep a xs else a :: x :: xs

/-- Stable insertion sort (models Python's stable `list.sort`): an element
inserted into the sorted suffix passes only elements that must strictly
precede it, so equal keys keep their original relative order. -/
def sortStable {α : Type} (keep : α → α → Bool) : List α → List α
  | [] => []
  | a :: l => insertStable keep a (sortStable keep l)

/-- `rules.sort(key=lambda r: r["priority"], reverse=True)`: stable,
priority descending. -/
def sortRules (rs : List Rule) : List Rule :=
  sortStable (fun x a => decide (a.priority < x.priority)) rs

/-- `_load_category_rules`, from the point where the CSV rows have been read:
build a rule from each row (dropping empty-category rows), then sort by
priority descending, stably.  A missing or unreadable rule file yields `[]`
in the source and is not modelled further. -/
def _load_category_rules (prs : PriParse) (rows : List RawRow) : List Rule :=
  sortRules (rows.filterMap (mkRule prs))

/-- A Python `float` value: a finite value (exact, as a rational), NaN, or a
signed infinity (`inf true` is negative infinity). -/
inductive PyFloat where
  | num : ℚ → PyFloat
  | nan : PyFloat
  | inf : Bool → PyFloat
deriving DecidableEq

/-- Python `abs()` on floats: `abs(nan)` is nan, `abs(±inf)` is `+inf`. -/
def pyAbs : PyFloat → PyFloat
  | .num q => .num |q|
  | .nan => .nan
  | .inf _ => .inf false

/-- The Python comparison `x >= 0` on a float: `False` for NaN and `-inf`. -/
def pyGeZero : PyFloat → Bool
  | .num q => decide (0 ≤ q)
  | .nan => false
  | .inf b => !b

/-- ASCII digit test. -/
def isDigit (n : Nat) : Bool := decide (48 ≤ n ∧ n ≤ 57)

/-- Value of a digit string (most significant first). -/
def digitsVal (l : Txt) : Nat := l.foldl (fun a d => a * 10 + (d - 48)) 0

/-- The `'.'` code point test. -/
def isDot (n : Nat) : Bool := n == 0x2E

/-- Model of Python `float()`: after stripping and an optional sign, it
accepts a plain decimal numeral (`"-1234.50"`, `".5"`, `"7."`, `"12"`, value
exact as a rational) and the case-insensitive special literals `"nan"`
(NaN, whatever the sign), `"inf"` and `"infinity"` (a signed infinity);
anything else — the empty string, stray symbols, and the exponent numerals
outside the modelled fragment — raises, modelled as `none`. -/
def pyFloat (l : Txt) : Option PyFloat :=
  let t := pyStrip l
  let sb : Bool × Txt :=
    match t with
    | 0x2D :: rest => (true, rest)
    | 0x2B :: rest => (false, rest)
    | _ => (false, t)
  let low := sb.2.map pyLower
  if low = [0x6E, 0x61, 0x6E] then some PyFloat.nan
  else if low = [0x69, 0x6E, 0x66] ∨
      low = [0x69, 0x6E, 0x66, 0x69, 0x6E, 0x69, 0x74, 0x79] then
    some (PyFloat.inf sb.1)
  else
    let q? : Option ℚ :=
      match splitFields isDot sb.2 with
      | [ip] => if ip ≠ [] ∧ ip.all isDigit then some (mkRat (digitsVal ip) 1) else none
      | [ip, fp] =>
        if (ip ≠ [] ∨ fp ≠ []) ∧ ip.all isDigit ∧ fp.all isDigit then
          some (mkRat (digitsVal ip * 10 ^ fp.length + digitsVal fp) (10 ^ fp.length))
        else none
      | _ => none
    q?.map (fun q => PyFloat.num (if sb.1 then -q else q))

/-- `_clean_amount` from `merge_bills.py`: `None` for NaN; otherwise strip,
drop thousands separators `","`, drop the currency signs `￥`/`¥`, drop `"="`,
turn `"("` into `"-"`, drop `")"`, then `float(·)` (`none` on failure). -/
def _clean_amount (x : Option Txt) : Option PyFloat :=
  match x with
  | none => none
  | some s0 =>
    let s1 := (pyStrip s0).filter (fun c => c ≠ 0x2C)
    let s2 := s1.filter (fun c => ¬ (c = 0xFFE5 ∨ c = 0xA5))
    let s3 := ((s2.filter (fun c => c ≠ 0x3D)).map
      (fun c => if c = 0x28 then 0x2D else c)).filter (fun c => c ≠ 0x29)
    pyFloat s3

/-- The text `"支出"` (expense). -/
def zhExpense : Txt := [0x652F, 0x51FA]

/-- The text `"收入"` (income). -/
def zhIncome : Txt := [0x6536, 0x5165]

/-- The text `"转出"` (transfer out). -/
def zhTransferOut : Txt := [0x8F6C, 0x51FA]

/-- The text `"转入"` (transfer in). -/
def zhTransferIn : Txt := [0x8F6C, 0x5165]

/-- The text `"退款"` (refund). -/
def zhRefund : Txt := [0x9000, 0x6B3E]

/-- The text `"Alipay"`. -/
def platAlipay : Txt := [65, 108, 105, 112, 97, 121]

/-- The text `"WeChat"`. -/
def platWeChat : Txt := [87, 101, 67, 104, 97, 116]

/-- One raw statement row after column-alias resolution (each logical field is
the cell of the chosen column; `none` when the column is absent or the cell is
NaN). -/
structure SrcRow where
  time : Option Txt
  io : Option Txt
  typ : Option Txt
  amount : Option Txt
  merchant : Option Txt
  item : Option Txt
  status : Option Txt
  method : Option Txt
  note : Option Txt

/-- One canonical transaction. -/
structure Tx where
  date : Option Nat
  typ : Txt
  amount : PyFloat
  merchant : Option Txt
  item : Option Txt
  method : Option Txt
  status : Option Txt
  platform : Txt
  note : Option Txt
deriving DecidableEq

/-- Direction logic of `parse_alipay`: `io in ["支出","转出"]` ⇒ expense,
`io in ["收入","转入"]` ⇒ income, anything else defaults to expense. -/
def alipayType (io : Option Txt) : Txt :=
  let s := pyStrip (io.getD [])
  if s = zhExpense ∨ s = zhTransferOut then zhExpense
  else if s = zhIncome ∨ s = zhTransferIn then zhIncome
  else zhExpense

/-- Direction logic of `parse_wechat`: an exact `"支出"`/`"收入"` indicator
wins; otherwise the (stripped, not otherwise normalized) transaction-type text
is searched for the substrings `"退款"`, `"转入"`, `"收入"`; default expense. -/
def wechatType (io typG : Option Txt) : Txt :=
  let s := pyStrip (io.getD [])
  let tg := pyStrip (typG.getD [])
  if s = zhExpense then zhExpense
  else if s = zhIncome then zhIncome
  else if [zhRefund, zhTransferIn, zhIncome].any (fun k => containsSub k tg) then
    zhIncome
  else zhExpense

/-- Modelled from the spec (§4.2 of the design): the same direction inference,
but with the transaction-type text passed through the Text Normalizer (§4.1)
before the refund/inflow keyword search — the source instead only strips it.
This definition follows the spec's words and exists to be compared with
`wechatType`. -/
def specWechatType (io typG : Option Txt) : Txt :=
  let s := pyStrip (io.getD [])
  if s = zhExpense then zhExpense
  else if s = zhIncome then zhIncome
  else if [zhRefund, zhTransferIn, zhIncome].any
      (fun k => containsSub k (_normalize_text (some (typG.getD [])))) then
    zhIncome
  else zhExpense

/-- The loop body of `parse_alipay`: skip the row if the amount is unparsable,
otherwise emit the canonical transaction (amount stored as absolute value,
date via the `_to_date` oracle `td`). -/
def alipayRow (td : Txt → Option Nat) (r : SrcRow) : Option Tx :=
  match _clean_amount r.amount with
  | none => none
  | some amt =>
    some { date := r.time.bind td, typ := alipayType r.io, amount := pyAbs amt,
           merchant := r.merchant, item := r.item, method := r.method,
           status := r.status, platform := platAlipay, note := r.note }

/-- The loop body of `parse_wechat`. -/
def wechatRow (td : Txt → Option Nat) (r : SrcRow) : Option Tx :=
  match _clean_amount r.amount with
  | none => none
  | some amt =>
    some { date := r.time.bind td, typ := wechatType r.io r.typ,
           amount := pyAbs amt,
           merchant := r.merchant, item := r.item, method := r.method,
           status := r.status, platform := platWeChat, note := r.note }

/-- `parse_alipay` over the rows of one recognized file. -/
def parse_alipay (td : Txt → Option Nat) (rows : List SrcRow) : List Tx :=
  rows.filterMap (alipayRow td)

/-- `parse_wechat` over the rows of one recognized file. -/
def parse_wechat (td : Txt → Option Nat) (rows : List SrcRow) : List Tx :=
  rows.filterMap (wechatRow td)

/-- The sort key of the final ledger sort (`sort_values("date")`); defined on
validated rows, whose date is present. -/
def dateKey (t : Tx) : Nat := t.date.getD 0

/-- `dropna(subset=["date", "amount"])`: drop rows whose date failed to parse
and rows whose amount is NaN (the only NA value a float column can hold;
infinities are not NA for pandas). -/
def validRows (l : List Tx) : List Tx :=
  l.filter (fun t => t.date.isSome && decide (t.amount ≠ PyFloat.nan))

/-- The contract pandas documents for `sort_values("date")` with the default
`kind="quicksort"`: the result is a permutation of the input, sorted by date
ascending.  Stability is *not* part of this contract. -/
def isSortImpl (f : List Tx → List Tx) : Prop :=
  ∀ l : List Tx,
    (f l).Perm l ∧ List.Chain' (fun a b => dateKey a ≤ dateKey b) (f l)

/-- The merge pipeline of `main` after the adapters: concatenate the parsed
frames, validate dates, sort by date. -/
def mergeLedger (f : List Tx → List Tx) (dfs : List (List Tx)) : List Tx :=
  f (validRows dfs.flatten)

/-- A concrete stable implementation of the sort contract (what `mergesort` /
`kind="stable"` would do, and what numpy's small-array insertion sort does on
the concrete inputs considered below). -/
def sortTxStable (l : List Tx) : List Tx :=
  sortStable (fun x a => decide (dateKey x < dateKey a)) l

/-- A contract-satisfying but deliberately tie-reversing implementation:
stable-sort the reversed input.  It witnesses that the documented contract
does not determine the order of equal dates. -/
def antiSort (l : List Tx) : List Tx := sortTxStable l.reverse

/-- Tie preservation of the final sort: rows of each equal-date class appear
in the merged ledger in exactly their concatenation order. -/
def tiesStable (f : List Tx → List Tx) : Prop :=
  ∀ (dfs : List (List Tx)) (p : Nat),
    (mergeLedger f dfs).filter (fun t => decide (dateKey t = p)) =
      (validRows dfs.flatten).filter (fun t => decide (dateKey t = p))

/-- Code points that the first pass of `_normalize_text` leaves alone: not
NBSP, not ideographic space, not a full-width ASCII variant (so NFKC-fixed in
the modelled fragment), not the zero-width space, and not a combining mark
(so no composition can involve them). -/
def goodC (n : Nat) : Prop :=
  n ≠ 0xA0 ∧ n ≠ 0x3000 ∧ ¬(0xFF01 ≤ n ∧ n ≤ 0xFF5E) ∧ n ≠ 0x200B ∧ n ≠ 0x301

/-- The text reaching the whitespace-collapsing step of `_normalize_text`:
after NFKC (folding and composition), the NBSP replacement and the
zero-width-space removal. -/
def stage2 (l : Txt) : Txt :=
  ((composeStr (l.map nfkcChar)).map (fun c => if c = 0xA0 then 32 else c)).filter
    (fun c => c ≠ 0x200B)

/-- A regex oracle in which every pattern is malformed (every call raises). -/
def seNone : SearchFn := fun _ _ => none

/-- A date oracle that parses nothing. -/
def td0 : Txt → Option Nat := fun _ => none

/-- A priority parse oracle that fails on every cell. -/
def prs0 : PriParse := fun _ => none

/-- A literal rule whose merchant pattern is the single zero-width space: the
pattern is non-empty but normalizes to the empty string. -/
def ruleZwsp : Rule := ⟨0, [0x200B], [], [0x61], [], false⟩

/-- A catch-all rule (no conditions), category `"z"`. -/
def ruleCatchAll : Rule := ⟨0, [], [], [0x7A], [], false⟩

/-- A regex rule with merchant pattern `"a"`, category `"c"`. -/
def ruleRegexM : Rule := ⟨0, [0x61], [], [0x63], [], true⟩

/-- A literal rule with merchant pattern `"kfc"` and keyword pattern `"a"`. -/
def ruleMK : Rule := ⟨0, [0x6B, 0x66, 0x63], [0x61], [0x62], [], false⟩

/-- A literal merchant-only rule with pattern `"kfc"`. -/
def ruleMOnly : Rule := ⟨0, [0x6B, 0x66, 0x63], [], [0x62], [], false⟩

/-- A raw rule row whose category cell is a single space (empty after trim). -/
def rowEmptyCat : RawRow := ⟨some [0x35], none, none, some [32], none, none⟩

/-- A raw rule row with category `"a"` and an unparsable priority cell. -/
def rowGoodCat : RawRow := ⟨some [0x78], none, none, some [0x61], none, none⟩

/-- The rule `rowGoodCat` loads to under the failing priority oracle. -/
def ruleFromGood : Rule := ⟨0, [], [], [0x61], [], false⟩

/-- The code points of the amount string `"(¥1,234.50)"`. -/
def amtParen : Txt := [0x28, 0xA5, 0x31, 0x2C, 0x32, 0x33, 0x34, 0x2E, 0x35, 0x30, 0x29]

/-- A source row whose amount cell is `"(¥1,234.50)"`. -/
def srcRowAmt : SrcRow := ⟨none, none, none, some amtParen, none, none, none, none, none⟩

/-- The transaction `parse_alipay` builds from `srcRowAmt`. -/
def txAmt : Tx := ⟨none, zhExpense, PyFloat.num ((2469 : ℚ) / 2), none, none, none, none, platAlipay, none⟩

/-- The transaction-type text `"转​入"`: the transfer-in keyword interrupted by
a zero-width space. -/
def typZwsp : Txt := [0x8F6C, 0x200B, 0x5165]

/-- A transaction dated 5 with merchant `"a"`, from the Alipay adapter. -/
def txA : Tx := ⟨some 5, zhExpense, PyFloat.num 1, some [97], none, none, none, platAlipay, none⟩

/-- A transaction dated 5 with merchant `"b"`, from the WeChat adapter. -/
def txB : Tx := ⟨some 5, zhExpense, PyFloat.num 1, some [98], none, none, none, platWeChat, none⟩

/-- The code points of the amount cell `"NAN"`: not in pandas' default NA
list (which has `nan`/`NaN` but not `NAN`), so it reaches `_clean_amount` as
a string, survives the character surgery untouched, and `float()` parses it
to NaN. -/
def srcRowNan : SrcRow := ⟨none, none, none, some [0x4E, 0x41, 0x4E], none, none, none, none, none⟩

/-- The transaction the Alipay adapter emits from `srcRowNan`: its amount is
`abs(nan)`, i.e. NaN. -/
def txNan : Tx := ⟨none, zhExpense, PyFloat.nan, none, none, none, none, platAlipay, none⟩

/-- The text `[e, U+200B, U+0301]`: a base letter and a combining acute
accent separated by a zero-width space, which blocks their composition on the
first NFKC pass but is removed afterwards. -/
def markSeq : Txt := [0x65, 0x200B, 0x301]

/-- The text `"ＫFC　2"` (full-width K, F, C, ideographic space, 2), a
mark-free text exercising folding, collapsing and lower-casing. -/
def kfcFull : Txt := [0xFF2B, 0x46, 0x43, 0x3000, 0x32]

theorem nfkcChar_out (a : Nat) :
    nfkcChar a ≠ 0xA0 ∧ nfkcChar a ≠ 0x3000 ∧
    ¬(0xFF01 ≤ nfkcChar a ∧ nfkcChar a ≤ 0xFF5E) := by
  unfold nfkcChar; split_ifs <;> omega

theorem nfkcChar_ne_mark {a : Nat} (h : a ≠ 0x301) : nfkcChar a ≠ 0x301 := by
  unfold nfkcChar; split_ifs <;> omega

theorem composePair_eq_none {a b : Nat} (hb : b ≠ 0x301) :
    composePair a b = none := by
  simp [composePair, hb]

theorem composeStr_id_of_no_mark (l : Txt) (h : ∀ c ∈ l, c ≠ 0x301) :
    composeStr l = l := by
  induction l with
  | nil => rfl
  | cons a rest ih =>
    cases rest with
    | nil => rfl
    | cons b rest' =>
      have hrest : composeStr (b :: rest') = b :: rest' :=
        ih (fun c hc => h c (by simp [hc]))
      have step : composeStr (a :: b :: rest') =
          (match composeStr (b :: rest') with
            | [] => [a]
            | x :: xs =>
              match composePair a x with
              | some c => c :: xs
              | none => a :: x :: xs) := rfl
      rw [step, hrest]
      show (match composePair a b with
        | some c => c :: rest'
        | none => a :: b :: rest') = a :: b :: rest'
      rw [composePair_eq_none (h b (by simp))]

theorem mem_composeStr {c : Nat} {l : Txt} (h : c ∈ composeStr l) :
    c ∈ l ∨ c = 0xE9 := by
  induction l with
  | nil => simp [composeStr] at h
  | cons a rest ih =>
    have step : composeStr (a :: rest) =
        (match composeStr rest with
          | [] => [a]
          | x :: xs =>
            match composePair a x with
            | some d => d :: xs
            | none => a :: x :: xs) := rfl
    rw [step] at h
    cases hrest : composeStr rest with
    | nil =>
      rw [hrest] at h
      have h2 : c ∈ [a] := h
      simp at h2
      subst h2
      left
      simp
    | cons b rest' =>
      rw [hrest] at h
      have h1 : c ∈ (match composePair a b with
        | some d => d :: rest'
        | none => a :: b :: rest') := h
      cases hcp : composePair a b with
      | some d =>
        rw [hcp] at h1
        have h2 : c ∈ d :: rest' := h1
        have hd : d = 0xE9 := by
          unfold composePair at hcp
          split_ifs at hcp
          exact (Option.some.inj hcp).symm
        rcases List.mem_cons.mp h2 with rfl | hmem
        · right; exact hd
        · have hc2 : c ∈ composeStr rest := by
            rw [hrest]; exact List.mem_cons_of_mem _ hmem
          rcases ih hc2 with h3 | h3
          · left; simp [h3]
          · right; exact h3
      | none =>
        rw [hcp] at h1
        have h2 : c ∈ a :: b :: rest' := h1
        rcases List.mem_cons.mp h2 with rfl | hmem
        · left; simp
        · have hc2 : c ∈ composeStr rest := by rw [hrest]; exact hmem
          rcases ih hc2 with h3 | h3
          · left; simp [h3]
          · right; exact h3

theorem goodC_nfkc_fixed {n : Nat} (h : goodC n) : nfkcChar n = n := by
  unfold goodC at h; unfold nfkcChar; split_ifs <;> omega

theorem goodC_32 : goodC 32 := by unfold goodC; omega

theorem pyLower_32 : pyLower 32 = 32 := by decide

theorem pyLower_idem (n : Nat) : pyLower (pyLower n) = pyLower n := by
  unfold pyLower; split_ifs <;> omega

theorem goodC_pyLower {n : Nat} (h : goodC n) : goodC (pyLower n) := by
  unfold goodC at h ⊢; unfold pyLower; split_ifs <;> omega

theorem pyIsSpace_pyLower (n : Nat) : pyIsSpace (pyLower n) = pyIsSpace n := by
  unfold pyLower
  split_ifs with h
  · unfold pyIsSpace; rw [decide_eq_decide]; omega
  · rfl

theorem pyIsSpace_32 : pyIsSpace 32 = true := by decide

theorem map_id_on {α : Type} {f : α → α} {l : List α} (h : ∀ c ∈ l, f c = c) :
    l.map f = l := by
  induction l with
  | nil => rfl
  | cons a l ih =>
    rw [List.map_cons, h a (by simp), ih (fun c hc => h c (by simp [hc]))]

theorem splitAllP_cons_true (p : Nat → Bool) (c : Nat) (l : Txt)
    (h : p c = true) :
    splitAllP p (c :: l) = ([], (splitAllP p l).1 :: (splitAllP p l).2) := by
  simp [splitAllP, h]

theorem splitAllP_cons_false (p : Nat → Bool) (c : Nat) (l : Txt)
    (h : p c = false) :
    splitAllP p (c :: l) = (c :: (splitAllP p l).1, (splitAllP p l).2) := by
  simp [splitAllP, h]

theorem splitAllP_append_clean (p : Nat → Bool) (t l : Txt)
    (h : ∀ c ∈ t, p c = false) :
    splitAllP p (t ++ l) = (t ++ (splitAllP p l).1, (splitAllP p l).2) := by
  induction t with
  | nil => simp
  | cons c t ih =>
    rw [List.cons_append, splitAllP_cons_false p c _ (h c (by simp)),
      ih (fun c hc => h c (by simp [hc]))]
    simp

theorem splitAllP_mem (p : Nat → Bool) (l : Txt) :
    (∀ c ∈ (splitAllP p l).1, c ∈ l ∧ p c = false) ∧
    (∀ t ∈ (splitAllP p l).2, ∀ c ∈ t, c ∈ l ∧ p c = false) := by
  induction l with
  | nil => simp [splitAllP]
  | cons a l ih =>
    cases h : p a with
    | true =>
      rw [splitAllP_cons_true p a l h]
      refine ⟨by simp, ?_⟩
      intro t ht c hc
      rcases List.mem_cons.mp ht with rfl | ht'
      · exact ⟨List.mem_cons_of_mem _ (ih.1 c hc).1, (ih.1 c hc).2⟩
      · exact ⟨List.mem_cons_of_mem _ (ih.2 t ht' c hc).1, (ih.2 t ht' c hc).2⟩
    | false =>
      rw [splitAllP_cons_false p a l h]
      constructor
      · intro c hc
        rcases List.mem_cons.mp hc with rfl | hc'
        · exact ⟨List.mem_cons_self _ _, h⟩
        · exact ⟨List.mem_cons_of_mem _ (ih.1 c hc').1, (ih.1 c hc').2⟩
      · intro t ht c hc
        exact ⟨List.mem_cons_of_mem _ (ih.2 t ht c hc).1, (ih.2 t ht c hc).2⟩

theorem splitFields_clean (t : Txt) (h : ∀ c ∈ t, pyIsSpace c = false) :
    splitFields pyIsSpace t = [t] := by
  unfold splitFields
  have := splitAllP_append_clean pyIsSpace t [] h
  simp only [List.append_nil] at this
  rw [this]
  simp [splitAllP]

theorem splitFields_clean_append (t rest : Txt)
    (h : ∀ c ∈ t, pyIsSpace c = false) :
    splitFields pyIsSpace (t ++ 32 :: rest) =
      t :: splitFields pyIsSpace rest := by
  unfold splitFields
  rw [splitAllP_append_clean pyIsSpace t _ h,
    splitAllP_cons_true pyIsSpace 32 rest pyIsSpace_32]
  simp

theorem joinSpace_cons (t : Txt) (ts : List Txt) (h : ts ≠ []) :
    joinSpace (t :: ts) = t ++ 32 :: joinSpace ts := by
  cases ts with
  | nil => exact absurd rfl h
  | cons u us => rfl

theorem mem_joinSpace {c : Nat} {ts : List Txt} (h : c ∈ joinSpace ts) :
    c = 32 ∨ ∃ t ∈ ts, c ∈ t := by
  induction ts with
  | nil => simp [joinSpace] at h
  | cons t ts ih =>
    cases ts with
    | nil => exact Or.inr ⟨t, by simp, h⟩
    | cons u us =>
      rw [joinSpace_cons t _ (by simp)] at h
      rcases List.mem_append.mp h with h1 | h2
      · exact Or.inr ⟨t, by simp, h1⟩
      · rcases List.mem_cons.mp h2 with rfl | h3
        · exact Or.inl rfl
        · rcases ih h3 with h4 | ⟨u', hu', hc⟩
          · exact Or.inl h4
          · exact Or.inr ⟨u', by simp [hu'], hc⟩

theorem map_joinSpace (f : Nat → Nat) (hf : f 32 = 32) (ts : List Txt) :
    (joinSpace ts).map f = joinSpace (ts.map (List.map f)) := by
  induction ts with
  | nil => rfl
  | cons t ts ih =>
    cases ts with
    | nil => rfl
    | cons u us =>
      rw [joinSpace_cons t _ (by simp), List.map_cons,
        joinSpace_cons (t.map f) _ (by simp), List.map_append, List.map_cons,
        hf, ih]

theorem wsTokens_joinSpace (ts : List Txt)
    (h : ∀ t ∈ ts, t ≠ [] ∧ ∀ c ∈ t, pyIsSpace c = false) :
    wsTokens (joinSpace ts) = ts := by
  induction ts with
  | nil => rfl
  | cons t ts ih =>
    cases ts with
    | nil =>
      show wsTokens t = [t]
      unfold wsTokens
      rw [splitFields_clean t (h t (by simp)).2, List.filter_cons]
      simp [(h t (by simp)).1]
    | cons u us =>
      rw [joinSpace_cons t _ (by simp)]
      unfold wsTokens
      rw [splitFields_clean_append t _ (h t (by simp)).2, List.filter_cons]
      have ht : t ≠ [] := (h t (by simp)).1
      have h2 := ih (fun x hx => h x (by simp [hx]))
      unfold wsTokens at h2
      simp at h2
      simp [ht, h2]

theorem mem_wsTokens {t : Txt} {l : Txt} (h : t ∈ wsTokens l) :
    t ≠ [] ∧ ∀ c ∈ t, c ∈ l ∧ pyIsSpace c = false := by
  unfold wsTokens splitFields at h
  have h2 := List.mem_filter.mp h
  refine ⟨by simpa using h2.2, ?_⟩
  rcases List.mem_cons.mp h2.1 with he | hm
  · intro c hc; exact (splitAllP_mem pyIsSpace l).1 c (he ▸ hc)
  · intro c hc; exact (splitAllP_mem pyIsSpace l).2 t hm c hc

theorem normalize_some_eq (l : Txt) :
    _normalize_text (some l) = (collapseStrip (stage2 l)).map pyLower := rfl

theorem stage2_good (l : Txt) (hM : ∀ c ∈ l, c ≠ 0x301) :
    ∀ c ∈ stage2 l, goodC c := by
  intro c hc
  unfold stage2 at hc
  have h1 := List.mem_filter.mp hc
  have h2 : c ≠ 0x200B := by simpa using h1.2
  rcases List.mem_map.mp h1.1 with ⟨b, hb, hfb⟩
  rcases mem_composeStr hb with hbm | rfl
  · rcases List.mem_map.mp hbm with ⟨a, ha, hna⟩
    subst hna
    rw [if_neg (nfkcChar_out a).1] at hfb
    subst hfb
    exact ⟨(nfkcChar_out a).1, (nfkcChar_out a).2.1, (nfkcChar_out a).2.2, h2,
      nfkcChar_ne_mark (hM a ha)⟩
  · rw [if_neg (by omega)] at hfb
    subst hfb
    refine ⟨by omega, by omega, by omega, h2, by omega⟩

theorem normalize_shape (l : Txt) (hM : ∀ c ∈ l, c ≠ 0x301) :
    ∃ ts : List Txt, _normalize_text (some l) = joinSpace ts ∧
      ∀ t ∈ ts, t ≠ [] ∧ ∀ c ∈ t, pyIsSpace c = false ∧ goodC c ∧
        pyLower c = c := by
  refine ⟨(wsTokens (stage2 l)).map (List.map pyLower), ?_, ?_⟩
  · rw [normalize_some_eq]
    unfold collapseStrip
    exact map_joinSpace pyLower pyLower_32 _
  · intro t ht
    rcases List.mem_map.mp ht with ⟨t0, ht0, rfl⟩
    have hprops := mem_wsTokens ht0
    constructor
    · simpa using hprops.1
    · intro c hc
      rcases List.mem_map.mp hc with ⟨c0, hc0, rfl⟩
      have hg : goodC c0 := stage2_good l hM c0 (hprops.2 c0 hc0).1
      refine ⟨?_, goodC_pyLower hg, pyLower_idem c0⟩
      rw [pyIsSpace_pyLower]
      exact (hprops.2 c0 hc0).2

theorem normalize_fixed (ts : List Txt)
    (h : ∀ t ∈ ts, t ≠ [] ∧ ∀ c ∈ t, pyIsSpace c = false ∧ goodC c ∧
      pyLower c = c) :
    _normalize_text (some (joinSpace ts)) = joinSpace ts := by
  have hchar : ∀ c ∈ joinSpace ts, goodC c ∧ pyLower c = c := by
    intro c hc
    rcases mem_joinSpace hc with rfl | ⟨t, ht, hct⟩
    · exact ⟨goodC_32, pyLower_32⟩
    · exact ⟨((h t ht).2 c hct).2.1, ((h t ht).2 c hct).2.2⟩
  rw [normalize_some_eq]
  have hs2 : stage2 (joinSpace ts) = joinSpace ts := by
    unfold stage2
    rw [map_id_on (fun c hc => goodC_nfkc_fixed (hchar c hc).1)]
    rw [composeStr_id_of_no_mark _ (fun c hc => (hchar c hc).1.2.2.2.2)]
    rw [map_id_on (fun c hc => if_neg (hchar c hc).1.1)]
    rw [List.filter_eq_self.mpr]
    intro c hc
    simpa using (hchar c hc).1.2.2.2.1
  rw [hs2]
  unfold collapseStrip
  rw [wsTokens_joinSpace ts (fun t ht => ⟨(h t ht).1,
    fun c hc => ((h t ht).2 c hc).1⟩)]
  exact map_id_on (fun c hc => (hchar c hc).2)

theorem normalize_idem (l : Txt) (hM : ∀ c ∈ l, c ≠ 0x301) :
    _normalize_text (some (_normalize_text (some l))) =
      _normalize_text (some l) := by
  rcases normalize_shape l hM with ⟨ts, he, hp⟩
  rw [he, normalize_fixed ts hp]

theorem normalize_nil : _normalize_text (some []) = [] := rfl

theorem classifyGo_eq_find (se : SearchFn) (m i f : Txt) (rules : List Rule) :
    classifyGo se m i f rules =
      (rules.find? (matchRule se m i f)).elim ([], [])
        (fun r => (r.category, r.subcategory)) := by
  induction rules with
  | nil => rfl
  | cons r rs ih =>
    unfold classifyGo
    rw [List.find?_cons]
    cases h : matchRule se m i f r with
    | true => simp [h]
    | false => simp [h, ih]

theorem classifyGo_erase_false (se : SearchFn) (m i f : Txt)
    (pre post : List Rule) (r : Rule) (h : matchRule se m i f r = false) :
    classifyGo se m i f (pre ++ r :: post) = classifyGo se m i f (pre ++ post) := by
  induction pre with
  | nil => simp [classifyGo, h]
  | cons a pre ih =>
    simp only [List.cons_append]
    unfold classifyGo
    rw [ih]

theorem matchRule_false_of_malformed_merchant (se : SearchFn) (m i f : Txt)
    (r : Rule) (hrx : r.regex = true) (hm : r.merchant ≠ [])
    (hbad : ∀ t, se (_normalize_text (some r.merchant)) t = none) :
    matchRule se m i f r = false := by
  unfold matchRule
  rw [if_neg hm, hrx]
  simp [reFound, hbad]

theorem matchRule_false_of_malformed_keyword (se : SearchFn) (m i f : Txt)
    (r : Rule) (hrx : r.regex = true) (hk : r.keyword ≠ [])
    (hbad : ∀ t, se (_normalize_text (some r.keyword)) t = none) :
    matchRule se m i f r = false := by
  simp only [matchRule, hrx, if_neg hk, if_true]
  simp [reFound, hbad]

theorem matchRule_normPatterns (se : SearchFn) (m i f : Txt) (r : Rule)
    (hm1 : ∀ c ∈ r.merchant, c ≠ 0x301)
    (h1 : _normalize_text (some r.merchant) = [] → r.merchant = [])
    (hk1 : ∀ c ∈ r.keyword, c ≠ 0x301)
    (h2 : _normalize_text (some r.keyword) = [] → r.keyword = []) :
    matchRule se m i f (normPatterns r) = matchRule se m i f r := by
  have hm : _normalize_text (some (normPatterns r).merchant) =
      _normalize_text (some r.merchant) := normalize_idem r.merchant hm1
  have hk : _normalize_text (some (normPatterns r).keyword) =
      _normalize_text (some r.keyword) := normalize_idem r.keyword hk1
  have hme : ((normPatterns r).merchant = []) ↔ (r.merchant = []) := by
    constructor
    · exact fun h => h1 h
    · intro h; show _normalize_text (some r.merchant) = []
      rw [h]; exact normalize_nil
  have hke : ((normPatterns r).keyword = []) ↔ (r.keyword = []) := by
    constructor
    · exact fun h => h2 h
    · intro h; show _normalize_text (some r.keyword) = []
      rw [h]; exact normalize_nil
  unfold matchRule
  by_cases hmm : r.merchant = [] <;> by_cases hkk : r.keyword = [] <;>
    simp only [hme, hke, hmm, hkk, if_true, if_false, hm, hk,
      if_pos, if_neg, not_false_iff] <;>
    simp [normPatterns, hm, hk, hme, hke, hmm, hkk]

theorem classifyGo_map_normPatterns (se : SearchFn) (m i f : Txt)
    (rules : List Rule)
    (h : ∀ r ∈ rules,
      ((∀ c ∈ r.merchant, c ≠ 0x301) ∧
        (_normalize_text (some r.merchant) = [] → r.merchant = []))
      ∧ ((∀ c ∈ r.keyword, c ≠ 0x301) ∧
        (_normalize_text (some r.keyword) = [] → r.keyword = []))) :
    classifyGo se m i f (rules.map normPatterns) = classifyGo se m i f rules := by
  induction rules with
  | nil => rfl
  | cons r rs ih =>
    simp only [List.map_cons]
    unfold classifyGo
    rw [matchRule_normPatterns se m i f r (h r (by simp)).1.1 (h r (by simp)).1.2
      (h r (by simp)).2.1 (h r (by simp)).2.2]
    cases hm : matchRule se m i f r with
    | true => simp [normPatterns]
    | false => simp [ih (fun x hx => h x (by simp [hx]))]

theorem insertStable_perm {α : Type} (keep : α → α → Bool) (a : α)
    (l : List α) : (insertStable keep a l).Perm (a :: l) := by
  induction l with
  | nil => exact List.Perm.refl _
  | cons x xs ih =>
    unfold insertStable
    split
    · exact (ih.cons x).trans (List.Perm.swap a x xs)
    · exact List.Perm.refl _

theorem sortStable_perm {α : Type} (keep : α → α → Bool) (l : List α) :
    (sortStable keep l).Perm l := by
  induction l with
  | nil => exact List.Perm.refl _
  | cons a l ih =>
    exact (insertStable_perm keep a (sortStable keep l)).trans (ih.cons a)

theorem insertStable_head_cases {α : Type} (keep : α → α → Bool) (a : α)
    (l : List α) :
    insertStable keep a l = a :: l ∨
      ∃ x xs, l = x :: xs ∧ keep x a = true ∧
        insertStable keep a l = x :: insertStable keep a xs := by
  cases l with
  | nil => left; rfl
  | cons x xs =>
    cases h : keep x a with
    | true => right; exact ⟨x, xs, rfl, h, by simp [insertStable, h]⟩
    | false => left; simp [insertStable, h]

theorem insertStable_chain' {α : Type} {R : α → α → Prop}
    (keep : α → α → Bool)
    (hF : ∀ x a, keep x a = false → R a x)
    (hT : ∀ x a, keep x a = true → R x a)
    (a : α) (l : List α) (hl : l.Chain' R) :
    (insertStable keep a l).Chain' R := by
  induction l with
  | nil => simp [insertStable]
  | cons x xs ih =>
    cases h : keep x a with
    | false =>
      have : insertStable keep a (x :: xs) = a :: x :: xs := by
        simp [insertStable, h]
      rw [this, List.chain'_cons]
      exact ⟨hF x a h, hl⟩
    | true =>
      have hrw : insertStable keep a (x :: xs) = x :: insertStable keep a xs := by
        simp [insertStable, h]
      rw [hrw, List.chain'_cons']
      refine ⟨?_, ih hl.tail⟩
      intro y hy
      rcases insertStable_head_cases keep a xs with he | ⟨x', xs', hxs, _, he⟩
      · rw [he] at hy
        simp only [List.head?_cons, Option.mem_def, Option.some.injEq] at hy
        rw [hy.symm]
        exact hT x a h
      · rw [he] at hy
        simp only [List.head?_cons, Option.mem_def, Option.some.injEq] at hy
        rw [hy.symm]
        exact (List.chain'_cons'.mp hl).1 x' (by rw [hxs]; rfl)

theorem sortStable_chain' {α : Type} {R : α → α → Prop}
    (keep : α → α → Bool)
    (hF : ∀ x a, keep x a = false → R a x)
    (hT : ∀ x a, keep x a = true → R x a)
    (l : List α) : (sortStable keep l).Chain' R := by
  induction l with
  | nil => simp [sortStable]
  | cons a l ih => exact insertStable_chain' keep hF hT a _ ih

theorem filter_insertStable {α : Type} (keep : α → α → Bool) (p : α → Bool)
    (hc : ∀ x a, p a = true → keep x a = true → p x = false)
    (a : α) (l : List α) :
    (insertStable keep a l).filter p =
      if p a then a :: l.filter p else l.filter p := by
  induction l with
  | nil =>
    show [a].filter p = _
    rw [List.filter_cons]
  | cons x xs ih =>
    cases h : keep x a with
    | true =>
      have hrw : insertStable keep a (x :: xs) = x :: insertStable keep a xs := by
        simp [insertStable, h]
      rw [hrw, List.filter_cons, ih, List.filter_cons]
      cases hpa : p a with
      | true => simp [hc x a hpa h, hpa]
      | false => simp [hpa]
    | false =>
      have hrw : insertStable keep a (x :: xs) = a :: x :: xs := by
        simp [insertStable, h]
      rw [hrw, List.filter_cons]

theorem filter_sortStable {α : Type} (keep : α → α → Bool) (p : α → Bool)
    (hc : ∀ x a, p a = true → keep x a = true → p x = false)
    (l : List α) : (sortStable keep l).filter p = l.filter p := by
  induction l with
  | nil => rfl
  | cons a l ih =>
    show (insertStable keep a (sortStable keep l)).filter p = _
    rw [filter_insertStable keep p hc, ih, List.filter_cons]

theorem ite_bool_and (b t : Bool) : (if b = true then t else false) = (b && t) := by
  cases b <;> simp

theorem sortTxStable_impl : isSortImpl sortTxStable := by
  intro l
  constructor
  · exact sortStable_perm _ l
  · refine sortStable_chain' _ ?_ ?_ l
    · intro x a h
      have := of_decide_eq_false h
      omega
    · intro x a h
      have := of_decide_eq_true h
      omega

theorem antiSort_impl : isSortImpl antiSort := by
  intro l
  constructor
  · exact (sortTxStable_impl l.reverse).1.trans (List.reverse_perm l)
  · exact (sortTxStable_impl l.reverse).2

theorem tiesStable_sortTxStable : tiesStable sortTxStable := by
  intro dfs p
  unfold mergeLedger sortTxStable
  refine filter_sortStable _ _ ?_ _
  intro x a hpa hk
  have h1 := of_decide_eq_true hpa
  have h2 := of_decide_eq_true hk
  have : dateKey x ≠ p := by omega
  simpa using this

theorem validRows_pair_perm (A B : List Tx) :
    (validRows ([A, B].flatten)).Perm (validRows ([B, A].flatten)) := by
  simp only [List.flatten_cons, List.flatten_nil, List.append_nil, validRows,
    List.filter_append]
  exact List.perm_append_comm

/-- C1: classification is first-match-wins over the rule sequence: for every
transaction (note, merchant, item), every regex oracle and every rule list,
`_classify` returns the category/subcategory pair of the first rule in the
list all of whose declared conditions hold (`matchRule`, evaluated on the
normalized match targets), and returns `("", "")` when no rule matches. -/
theorem classify_first_match_wins (se : SearchFn)
    (note merchant item : Option Txt) (rules : List Rule) :
    _classify se note merchant item rules =
      (rules.find? (matchRule se (mText merchant) (itemJoin note item)
        (fullText note merchant item))).elim ([], [])
        (fun r => (r.category, r.subcategory)) :=
  classifyGo_eq_find se _ _ _ rules

/-- C2: for every priority-parse oracle and every row list, the loaded rule
list is non-increasing in priority; it is a permutation of the rules built
from the rows in order; the rules of any fixed priority appear in exactly
their source-row order (stable tie-break); a row whose category is empty
after trimming contributes no rule; and a priority cell that fails to parse
becomes priority 0. -/
theorem load_category_rules_contract (prs : PriParse) (rows : List RawRow) :
    List.Chain' (fun a b => b.priority ≤ a.priority)
      (_load_category_rules prs rows)
    ∧ (_load_category_rules prs rows).Perm (rows.filterMap (mkRule prs))
    ∧ (∀ p : Int,
        (_load_category_rules prs rows).filter (fun r => decide (r.priority = p)) =
          (rows.filterMap (mkRule prs)).filter (fun r => decide (r.priority = p)))
    ∧ (∀ row, pyStrip (row.category.getD []) = [] → mkRule prs row = none)
    ∧ (∀ row r, mkRule prs row = some r → prs row.priority = none →
        r.priority = 0) := by
  refine ⟨?_, ?_, ?_, ?_, ?_⟩
  · refine sortStable_chain' _ ?_ ?_ _
    · intro x a h
      have := of_decide_eq_false h
      omega
    · intro x a h
      have := of_decide_eq_true h
      omega
  · exact sortStable_perm _ _
  · intro p
    refine filter_sortStable _ _ ?_ _
    intro x a hpa hk
    have h1 := of_decide_eq_true hpa
    have h2 := of_decide_eq_true hk
    have : x.priority ≠ p := by omega
    simpa using this
  · intro row h
    simp [mkRule, h]
  · intro row r hsome hnone
    simp only [mkRule] at hsome
    by_cases hcat : pyStrip (row.category.getD []) = []
    · simp [hcat] at hsome
    · rw [if_neg hcat] at hsome
      have := Option.some.inj hsome
      rw [← this]
      show to_int prs row.priority = 0
      unfold to_int
      rw [hnone]
      rfl

/-- C2 witness: under the always-failing priority oracle, the row whose
category cell is a single space loads to no rule, and the rule loaded from
the well-formed row receives priority 0. -/
theorem load_category_rules_contract_instance :
    mkRule prs0 rowEmptyCat = none ∧ ruleFromGood.priority = 0 := by
  constructor
  · exact (load_category_rules_contract prs0 [rowEmptyCat, rowGoodCat]).2.2.2.1
      rowEmptyCat (by decide)
  · exact (load_category_rules_contract prs0 [rowEmptyCat, rowGoodCat]).2.2.2.2
      rowGoodCat ruleFromGood (by decide) rfl

/-- C3: match-target selection.  The per-rule test factors into a merchant
condition and a keyword condition; the merchant condition is evaluated
against the merchant text alone when the rule also has a keyword pattern and
against the full text when it has none, while the keyword condition is always
evaluated against the item⊕note text (`itjoin`, which by construction of
`itemJoin` never contains the merchant field).  Consequently the result does
not depend on the full text when a keyword pattern is present, and does not
depend on the merchant text when no keyword pattern is present. -/
theorem classify_match_targets (se : SearchFn) (mtext itjoin ftext : Txt)
    (r : Rule) :
    (matchRule se mtext itjoin ftext r =
      ((if r.merchant = [] then true
        else evalCond se r.regex (_normalize_text (some r.merchant))
          (if r.keyword = [] then ftext else mtext)) &&
       (if r.keyword = [] then true
        else evalCond se r.regex (_normalize_text (some r.keyword)) itjoin)))
    ∧ (r.keyword ≠ [] → ∀ ftext',
        matchRule se mtext itjoin ftext r = matchRule se mtext itjoin ftext' r)
    ∧ (r.keyword = [] → ∀ mtext',
        matchRule se mtext itjoin ftext r = matchRule se mtext' itjoin ftext r) := by
  refine ⟨?_, ?_, ?_⟩
  · simp only [matchRule, evalCond]
    rw [ite_bool_and]
  · intro hk ftext'
    simp only [matchRule, if_neg hk]
  · intro hk mtext'
    simp only [matchRule, if_pos hk]

/-- C3 witness: for a merchant+keyword rule the result ignores the full text;
for a merchant-only rule it ignores the merchant text. -/
theorem classify_match_targets_instance :
    matchRule seNone [] [] [] ruleMK = matchRule seNone [] [] [0x7A] ruleMK ∧
    matchRule seNone [] [] [] ruleMOnly =
      matchRule seNone [0x7A] [] [] ruleMOnly := by
  constructor
  · exact (classify_match_targets seNone [] [] [] ruleMK).2.1 (by decide) [0x7A]
  · exact (classify_match_targets seNone [] [] [] ruleMOnly).2.2 (by decide) [0x7A]

/-- C4: a regex-mode rule one of whose declared patterns is malformed (the
regex oracle raises on it for every target) never matches: removing it from
the rule list, at any position, does not change the classification of any
transaction.  `_classify` is a total function of its inputs, so no exception
reaches the caller in the model. -/
theorem classify_malformed_regex_skipped (se : SearchFn)
    (note merchant item : Option Txt) (pre post : List Rule) (r : Rule)
    (hrx : r.regex = true)
    (hbad : (r.merchant ≠ [] ∧
        ∀ t, se (_normalize_text (some r.merchant)) t = none)
      ∨ (r.keyword ≠ [] ∧
        ∀ t, se (_normalize_text (some r.keyword)) t = none)) :
    _classify se note merchant item (pre ++ r :: post) =
      _classify se note merchant item (pre ++ post) := by
  have hfalse : matchRule se (mText merchant) (itemJoin note item)
      (fullText note merchant item) r = false := by
    rcases hbad with ⟨hm, hb⟩ | ⟨hk, hb⟩
    · exact matchRule_false_of_malformed_merchant _ _ _ _ r hrx hm hb
    · exact matchRule_false_of_malformed_keyword _ _ _ _ r hrx hk hb
  exact classifyGo_erase_false _ _ _ _ pre post r hfalse

/-- C4 witness: under the all-raising regex oracle, the regex rule is skipped
and classification falls through to the catch-all rule. -/
theorem classify_malformed_regex_skipped_instance :
    _classify seNone none none none [ruleRegexM, ruleCatchAll] =
      _classify seNone none none none [ruleCatchAll] :=
  classify_malformed_regex_skipped seNone none none none [] [ruleCatchAll]
    ruleRegexM rfl (Or.inl ⟨by decide, fun t => rfl⟩)

/-- C5 (amended): `_normalize_text` is idempotent on every text containing no
combining mark (U+0301 in the modelled repertoire); it is a total pure
function by construction; and an absent (`None`) or empty input normalizes to
the empty string.  Unrestricted idempotence fails on the code: the zero-width
space is removed only after NFKC, so its removal can juxtapose a base letter
and a combining mark that NFKC then composes on a second pass (see the
counterexample). -/
theorem normalize_text_idempotent :
    (∀ l : Txt, (∀ c ∈ l, c ≠ 0x301) →
      _normalize_text (some (_normalize_text (some l))) =
        _normalize_text (some l))
    ∧ _normalize_text none = [] ∧ _normalize_text (some []) = [] :=
  ⟨normalize_idem, rfl, rfl⟩

/-- C5 counterexample: on `[e, U+200B, U+0301]` the first normalization only
removes the zero-width space (which had blocked composition), yielding the
decomposed `e` + combining acute; the second normalization canonically
composes that to `é`, so `normalize ∘ normalize ≠ normalize` at this input. -/
theorem normalize_text_idempotent_cex :
    _normalize_text (some (_normalize_text (some markSeq))) ≠
      _normalize_text (some markSeq) := by
  decide

/-- C5 witness: idempotence at a concrete mark-free text exercising
full-width folding, whitespace collapsing and lower-casing. -/
theorem normalize_text_idempotent_instance :
    _normalize_text (some (_normalize_text (some kfcFull))) =
      _normalize_text (some kfcFull) :=
  normalize_text_idempotent.1 kfcFull (by decide)

theorem amtParen_val : |(-(mkRat 123450 100))| = (2469 : ℚ) / 2 := by
  rw [Rat.mkRat_eq_div, abs_neg]
  push_cast
  rw [abs_of_nonneg (by positivity)]
  norm_num

/-- C6 (amended): every transaction either adapter emits stores the absolute
value of the cleaned amount, so its amount is never a negative number: it
passes Python's `>= 0` test whenever it is not NaN; a NaN amount — reachable,
since `float()` accepts the literal `"NAN"`, which pandas' default NA
detection does not catch (see the counterexample) — fails `>= 0` but is
dropped from the final ledger by the merger's date/amount validation
(`validRows`); and a row whose amount cell is `"(¥1,234.50)"` is stored with
amount exactly 1234.50. -/
theorem adapter_amount_nonneg :
    (∀ (td : Txt → Option Nat) (r : SrcRow) (t : Tx),
      alipayRow td r = some t → t.amount ≠ PyFloat.nan →
        pyGeZero t.amount = true)
    ∧ (∀ (td : Txt → Option Nat) (r : SrcRow) (t : Tx),
      wechatRow td r = some t → t.amount ≠ PyFloat.nan →
        pyGeZero t.amount = true)
    ∧ (∀ l : List Tx, ∀ t ∈ validRows l, t.amount ≠ PyFloat.nan)
    ∧ (∀ (td : Txt → Option Nat) (r : SrcRow) (t : Tx),
      r.amount = some amtParen → alipayRow td r = some t →
        t.amount = PyFloat.num ((2469 : ℚ) / 2)) := by
  refine ⟨?_, ?_, ?_, ?_⟩
  · intro td r t h hnn
    unfold alipayRow at h
    cases hc : _clean_amount r.amount with
    | none => rw [hc] at h; simp at h
    | some v =>
      rw [hc] at h
      have h2 := Option.some.inj h
      rw [← h2] at hnn ⊢
      cases v with
      | num q => simp [pyAbs, pyGeZero, abs_nonneg q]
      | nan => exact absurd rfl hnn
      | inf b => simp [pyAbs, pyGeZero]
  · intro td r t h hnn
    unfold wechatRow at h
    cases hc : _clean_amount r.amount with
    | none => rw [hc] at h; simp at h
    | some v =>
      rw [hc] at h
      have h2 := Option.some.inj h
      rw [← h2] at hnn ⊢
      cases v with
      | num q => simp [pyAbs, pyGeZero, abs_nonneg q]
      | nan => exact absurd rfl hnn
      | inf b => simp [pyAbs, pyGeZero]
  · intro l t ht
    have h2 := (List.mem_filter.mp ht).2
    simp only [Bool.and_eq_true, decide_eq_true_eq] at h2
    exact h2.2
  · intro td r t hr h
    unfold alipayRow at h
    rw [hr] at h
    have h0 : _clean_amount (some amtParen) =
        some (PyFloat.num (-(mkRat 123450 100))) := rfl
    rw [h0] at h
    have h2 := Option.some.inj h
    rw [← h2]
    show pyAbs (PyFloat.num (-(mkRat 123450 100))) = _
    simp only [pyAbs]
    rw [amtParen_val]

/-- C6 counterexample: the amount cell `"NAN"` survives the cleaning surgery,
`float()` parses it to NaN, and `abs(nan)` is NaN, so the Alipay adapter
emits a transaction whose amount fails the `>= 0` test. -/
theorem adapter_amount_nonneg_cex :
    alipayRow td0 srcRowNan = some txNan ∧ pyGeZero txNan.amount = false :=
  ⟨by decide, rfl⟩

/-- C6 witness: the amended statement at the `"(¥1,234.50)"` row: the stored
amount is not NaN, passes the `>= 0` test, and equals 1234.50. -/
theorem adapter_amount_nonneg_instance :
    pyGeZero txAmt.amount = true ∧ txAmt.amount = PyFloat.num ((2469 : ℚ) / 2) := by
  have h1 : alipayRow td0 srcRowAmt = some
      { date := none, typ := zhExpense,
        amount := PyFloat.num |(-(mkRat 123450 100))|,
        merchant := none, item := none, method := none, status := none,
        platform := platAlipay, note := none } := rfl
  have hsome : alipayRow td0 srcRowAmt = some txAmt := by
    rw [h1, amtParen_val]
    rfl
  refine ⟨adapter_amount_nonneg.1 td0 srcRowAmt txAmt hsome ?_,
    adapter_amount_nonneg.2.2.2 td0 srcRowAmt txAmt rfl hsome⟩
  simp [txAmt]

/-- C7 (amended): the final merged ledger is sorted by date ascending and is
a permutation of the validated concatenated adapter output, for every sort
implementation satisfying the contract the code relies on; the relative order
of equal-date rows is preserved by a *stable* implementation
(`tiesStable sortTxStable`), but is not guaranteed by the contract itself —
the code requests pandas' default unstable quicksort (see the
counterexample). -/
theorem merged_ledger_sorted (f : List Tx → List Tx) (hf : isSortImpl f)
    (dfs : List (List Tx)) :
    List.Chain' (fun a b => dateKey a ≤ dateKey b) (mergeLedger f dfs)
    ∧ (mergeLedger f dfs).Perm (validRows dfs.flatten)
    ∧ tiesStable sortTxStable :=
  ⟨(hf _).2, (hf _).1, tiesStable_sortTxStable⟩

/-- C7 counterexample: stability is not a consequence of the code: there is a
sort implementation satisfying everything the code's sort call guarantees
(sorted-by-date permutation) under which two equal-date rows leave the merge
in the reverse of their concatenation order. -/
theorem merged_ledger_stability_cex :
    ¬ (∀ f : List Tx → List Tx, isSortImpl f → tiesStable f) := by
  intro h
  have h2 := h antiSort antiSort_impl [[txA], [txB]] 5
  revert h2
  decide

/-- C7 witness: the amended statement at the stable implementation and a
concrete two-file input. -/
theorem merged_ledger_sorted_instance :
    List.Chain' (fun a b => dateKey a ≤ dateKey b)
      (mergeLedger sortTxStable [[txB], [txA]])
    ∧ (mergeLedger sortTxStable [[txB], [txA]]).Perm
      (validRows [[txB], [txA]].flatten)
    ∧ tiesStable sortTxStable :=
  merged_ledger_sorted sortTxStable sortTxStable_impl [[txB], [txA]]

/-- C8 (amended): merging two files in either order yields the same ledger as
a multiset (a permutation), for every contract-satisfying sort
implementation; the row order itself can differ when the files share a date
(see the counterexample). -/
theorem merge_commutative_mod_sort (f : List Tx → List Tx)
    (hf : isSortImpl f) (A B : List Tx) :
    (mergeLedger f [A, B]).Perm (mergeLedger f [B, A]) :=
  (hf _).1.trans ((validRows_pair_perm A B).trans (hf _).1.symm)

/-- C8 counterexample: with the stable sort model — which is exactly how
pandas behaves on a two-row frame, where every sort kind degenerates to a
stable insertion sort — merging `[A, B]` and `[B, A]` yields different row
orders when the two rows carry the same date, so the ledgers are not
identical. -/
theorem merge_commutative_cex :
    mergeLedger sortTxStable [[txA], [txB]] ≠
      mergeLedger sortTxStable [[txB], [txA]] := by
  decide

/-- C8 witness: the amended statement at the stable implementation and the
same concrete files. -/
theorem merge_commutative_mod_sort_instance :
    (mergeLedger sortTxStable [[txA], [txB]]).Perm
      (mergeLedger sortTxStable [[txB], [txA]]) :=
  merge_commutative_mod_sort sortTxStable sortTxStable_impl [txA] [txB]

/-- C9 (amended): direction inference.  Both adapters always produce one of
the two enum values; a recognized explicit indicator determines the type; with
no recognized indicator the WeChat adapter inspects the *stripped* (not
normalized) transaction-type text for the refund/inflow keywords and infers
income, while the Alipay adapter — which reads no transaction-type column —
defaults to expense; and the emitted transactions carry exactly these types. -/
theorem direction_inference (io tg : Option Txt) :
    (wechatType io tg = zhExpense ∨ wechatType io tg = zhIncome)
    ∧ (alipayType io = zhExpense ∨ alipayType io = zhIncome)
    ∧ (pyStrip (io.getD []) = zhExpense → wechatType io tg = zhExpense)
    ∧ (pyStrip (io.getD []) = zhIncome → wechatType io tg = zhIncome)
    ∧ (pyStrip (io.getD []) ≠ zhExpense → pyStrip (io.getD []) ≠ zhIncome →
        wechatType io tg = (if [zhRefund, zhTransferIn, zhIncome].any
          (fun k => containsSub k (pyStrip (tg.getD []))) then zhIncome
          else zhExpense))
    ∧ (pyStrip (io.getD []) ≠ zhExpense → pyStrip (io.getD []) ≠ zhTransferOut →
        pyStrip (io.getD []) ≠ zhIncome → pyStrip (io.getD []) ≠ zhTransferIn →
        alipayType io = zhExpense)
    ∧ (∀ (td : Txt → Option Nat) (r : SrcRow) (t : Tx),
        alipayRow td r = some t → t.typ = alipayType r.io)
    ∧ (∀ (td : Txt → Option Nat) (r : SrcRow) (t : Tx),
        wechatRow td r = some t → t.typ = wechatType r.io r.typ) := by
  refine ⟨?_, ?_, ?_, ?_, ?_, ?_, ?_, ?_⟩
  · simp only [wechatType]
    split_ifs <;> first | exact Or.inl rfl | exact Or.inr rfl
  · simp only [alipayType]
    split_ifs <;> first | exact Or.inl rfl | exact Or.inr rfl
  · intro h
    simp [wechatType, h]
  · intro h
    simp [wechatType, h, zhExpense, zhIncome]
  · intro h1 h2
    simp [wechatType, h1, h2]
  · intro h1 h2 h3 h4
    simp [alipayType, h1, h2, h3, h4]
  · intro td r t h
    unfold alipayRow at h
    cases hc : _clean_amount r.amount with
    | none => rw [hc] at h; simp at h
    | some q =>
      rw [hc] at h
      have h2 := Option.some.inj h
      rw [← h2]
  · intro td r t h
    unfold wechatRow at h
    cases hc : _clean_amount r.amount with
    | none => rw [hc] at h; simp at h
    | some q =>
      rw [hc] at h
      have h2 := Option.some.inj h
      rw [← h2]

/-- C9 counterexample: the code inspects the raw (stripped) type text, not its
normalization: on the type text `"转​入"` (transfer-in interrupted by a
zero-width space) the WeChat adapter infers expense, while the direction
inference the claim describes — keyword search in the Text-Normalizer output —
infers income. -/
theorem direction_inference_cex :
    wechatType none (some typZwsp) ≠ specWechatType none (some typZwsp) := by
  decide

/-- C9 witness: a recognized indicator determines the type, and on the
zero-width-space type text the fallback yields expense. -/
theorem direction_inference_instance :
    wechatType (some zhExpense) none = zhExpense ∧
    wechatType none (some typZwsp) = zhExpense := by
  constructor
  · exact (direction_inference (some zhExpense) none).2.2.1 (by decide)
  · have h := (direction_inference none (some typZwsp)).2.2.2.2.1
      (by decide) (by decide)
    rw [h]
    decide

/-- C10 (amended): replacing every rule's patterns by their normalized forms
does not change any classification, provided each pattern contains no
combining mark (so that its normalization is idempotent) and normalizes to
the empty string only if it is itself empty (full-width/half-width, case and
surrounding-whitespace variants all satisfy both); without these provisos the
claim fails — a pattern that is only a zero-width space flips from
never-matching to match-all (see the counterexample), and a pattern with a
blocked combining mark changes its match set on re-normalization.  Moreover,
in literal mode the empty alias variants produced by splitting on `'|'` are
discarded, so a pattern all of whose aliases are empty makes its condition
fail for every target. -/
theorem classify_normalized_patterns (se : SearchFn)
    (note merchant item : Option Txt) (rules : List Rule)
    (h : ∀ r ∈ rules,
      ((∀ c ∈ r.merchant, c ≠ 0x301) ∧
        (_normalize_text (some r.merchant) = [] → r.merchant = []))
      ∧ ((∀ c ∈ r.keyword, c ≠ 0x301) ∧
        (_normalize_text (some r.keyword) = [] → r.keyword = []))) :
    _classify se note merchant item (rules.map normPatterns) =
      _classify se note merchant item rules
    ∧ ∀ patt target : Txt,
        (splitFields isBar patt).all (fun v => v.isEmpty) = true →
          anyAlias patt target = false := by
  refine ⟨classifyGo_map_normPatterns _ _ _ _ rules h, ?_⟩
  intro patt target hall
  unfold anyAlias aliasVariants
  have hnil : (splitFields isBar patt).filter (fun v => v ≠ []) = [] := by
    rw [List.filter_eq_nil_iff]
    intro v hv
    have := List.all_eq_true.mp hall v hv
    simp_all
  rw [hnil]
  rfl

/-- C10 counterexample: the rule whose merchant pattern is the single
zero-width space is non-empty (so its condition is evaluated, and always
fails, its only alias being empty after normalization), but its normalized
pattern is empty (so the condition is skipped and the rule matches
everything): replacing patterns by their normalized forms changes the
classification. -/
theorem classify_normalized_patterns_cex :
    _classify seNone none none none (List.map normPatterns [ruleZwsp]) ≠
      _classify seNone none none none [ruleZwsp] := by
  decide

/-- C10 witness: the amended statement at a concrete well-behaved rule list,
and the all-empty-alias pattern `"|"` failing against a concrete target. -/
theorem classify_normalized_patterns_instance :
    _classify seNone none none none (List.map normPatterns [ruleMK]) =
      _classify seNone none none none [ruleMK]
    ∧ anyAlias [0x7C] [0x61] = false := by
  have H := classify_normalized_patterns seNone none none none [ruleMK]
    (by decide)
  exact ⟨H.1, H.2 [0x7C] [0x61] (by decide)⟩

end MergeBills
